import Mathlib

/-!
Shallow embedding of the CSV → i18n generator (`tools/CSV dict/csv_to_i18n.py`):
the in-memory model builder (`validate_and_build`), the merge engine
(`merge_models`), and the emitter helpers (`cxx_escape`, `generate_cpp`).

Python dictionaries with string keys are embedded as association lists built
with first-insertion position and overwrite-on-assign semantics (`dassign`),
looked up with `dget` (first match, which is the unique match for lists built
by `dassign`).  Python truthiness of a possibly-missing dictionary
(`if src_csv and not src_ex`) is embedded by `truthy`: `None` and the empty
dictionary are falsy.
-/

/-- Lookup in an association list with default `""`, i.e. Python `d.get(k, "")`. -/
def dget (m : List (String × String)) (ln : String) : String :=
  ((m.find? (fun p => p.1 == ln)).map Prod.snd).getD ""

/-- Python `d[k] = v` on a string dictionary: overwrite in place if the key is
present (dictionaries keep the first-insertion position), else append. -/
def dassign (m : List (String × String)) (k v : String) : List (String × String) :=
  if m.any (fun p => p.1 == k) then m.map (fun p => if p.1 == k then (k, v) else p)
  else m ++ [(k, v)]

/-- `d.get(k, "")` where `d` itself may be `None`. -/
def oget : Option (List (String × String)) → String → String
  | none, _ => ""
  | some m, ln => dget m ln

/-- Python truthiness of an optional dictionary: `None` and `{}` are falsy. -/
def truthy : Option (List (String × String)) → Bool
  | none => false
  | some m => !m.isEmpty

/-- One record of the in-memory model: the `"key"` entry plus the per-language
value fields of the Python record dictionary. -/
structure Row where
  key : String
  vals : List (String × String)
deriving Repr, DecidableEq

/-- The secondary (existing) model's records: a dictionary `key ↦ (lang ↦ value)`. -/
abbrev EDict := List (String × List (String × String))

/-- `existing_data.get(k)`. -/
def edget (d : EDict) (k : String) : Option (List (String × String)) :=
  (d.find? (fun p => p.1 == k)).map (fun p => p.2)

/-- Language union of `merge_models`: start from the CSV languages and append
each existing language not already present. -/
def mergeLangs (csvLangs existingLangs : List String) : List String :=
  existingLangs.foldl (fun acc ln => if ln ∈ acc then acc else acc ++ [ln]) csvLangs

/-- One entry of `csv_map`: the CSV row's values restricted to the merged
language list, `{ln: row.get(ln, "") for ln in merged_langs}`. -/
def csvRestrict (mergedLangs : List String) (r : Row) : List (String × String) :=
  mergedLangs.map (fun ln => (ln, dget r.vals ln))

/-- `csv_map.get(k)`: the dictionary built row by row with assignment, so the
last CSV row carrying a given key wins. -/
def csvMap (mergedLangs : List String) (csvData : List Row) (k : String) :
    Option (List (String × String)) :=
  ((csvData.filter (fun r => r.key == k)).getLast?).map (csvRestrict mergedLangs)

/-- `k in csv_map`. -/
def inCsv (csvData : List Row) (k : String) : Bool :=
  csvData.any (fun r => r.key == k)

/-- Accumulator of the orphan scan of `merge_models`. -/
structure OrphanAcc where
  keys : List String
  kept : Nat
  dropped : Nat
deriving Repr, DecidableEq

/-- One step of the loop `for k in existing_data.keys()` that appends kept
orphans to `keys_in_order` and counts orphans. -/
def orphanStep (csvData : List Row) (dropOrphans : Bool) (acc : OrphanAcc)
    (k : String) : OrphanAcc :=
  if inCsv csvData k then acc
  else if dropOrphans then { acc with dropped := acc.dropped + 1 }
  else { keys := acc.keys ++ [k], kept := acc.kept + 1, dropped := acc.dropped }

/-- `preserve_order_keys[:] if preserve_order_keys else [r["key"] for r in csv_data]`
(Python truthiness: `None` and the empty list both fall back to the CSV keys). -/
def baseKeys (hint : Option (List String)) (csvData : List Row) : List String :=
  match hint with
  | some l => if l.isEmpty then csvData.map (fun r => r.key) else l
  | none => csvData.map (fun r => r.key)

/-- Per-language value of a key present in both models:
the branch on `overwrite_all` / `prefer` of `merge_models`. -/
def mergeValue (prefer : String) (overwriteAll : Bool) (p s : String) : String :=
  if overwriteAll then (if prefer == "csv" then p else s)
  else if prefer == "csv" then (if p ≠ "" then p else s)
  else (if s ≠ "" then s else p)

/-- The accumulated `changed` flag of the both-sides branch. -/
def rowChangedB (mergedLangs : List String) (prefer : String) (ow : Bool)
    (sc se : Option (List (String × String))) : Bool :=
  mergedLangs.any (fun ln => mergeValue prefer ow (oget sc ln) (oget se ln) != oget se ln)

/-- The merged record built for one key of `keys_in_order`. -/
def rowFor (mergedLangs : List String) (prefer : String) (ow : Bool)
    (sc se : Option (List (String × String))) (k : String) : Row :=
  if truthy sc && !truthy se then
    ⟨k, mergedLangs.map (fun ln => (ln, oget sc ln))⟩
  else if truthy se && !truthy sc then
    ⟨k, mergedLangs.map (fun ln => (ln, oget se ln))⟩
  else
    ⟨k, mergedLangs.map (fun ln => (ln, mergeValue prefer ow (oget sc ln) (oget se ln)))⟩

/-- How the per-key loop of `merge_models` classifies one key of
`keys_in_order` for the counters. -/
inductive MClass where
  | addedK
  | orphanK
  | updatedK
  | unchangedK
deriving Repr, DecidableEq

/-- Classification of one key of `keys_in_order` (the `orphanK` class is the
middle branch, which increments no counter in the loop itself). -/
def classify (mergedLangs : List String) (prefer : String) (ow : Bool)
    (sc se : Option (List (String × String))) : MClass :=
  if truthy sc && !truthy se then .addedK
  else if truthy se && !truthy sc then .orphanK
  else if rowChangedB mergedLangs prefer ow sc se then .updatedK
  else .unchangedK

/-- The five counters returned by `merge_models`. -/
structure Counters where
  added : Nat
  updated : Nat
  unchanged : Nat
  orphan_kept : Nat
  orphan_dropped : Nat
deriving Repr, DecidableEq

/-- The merge engine `merge_models` of `csv_to_i18n.py`: returns the merged
language list, the merged record list, and the counters. -/
def merge_models (csv_langs : List String) (csv_data : List Row)
    (existing_langs : List String) (existing_data : EDict)
    (prefer : String) (overwrite_all : Bool) (drop_orphans : Bool)
    (preserve_order_keys : Option (List String)) :
    List String × List Row × Counters :=
  let mergedLangs := mergeLangs csv_langs existing_langs
  let sc := csvMap mergedLangs csv_data
  let se := edget existing_data
  let oacc := (existing_data.map (fun p => p.1)).foldl
    (orphanStep csv_data drop_orphans) ⟨baseKeys preserve_order_keys csv_data, 0, 0⟩
  let keys := oacc.keys
  let rows := keys.map (fun k => rowFor mergedLangs prefer overwrite_all (sc k) (se k) k)
  let cls := keys.map (fun k => classify mergedLangs prefer overwrite_all (sc k) (se k))
  (mergedLangs, rows,
    { added := cls.count .addedK
      updated := cls.count .updatedK
      unchanged := cls.count .unchangedK
      orphan_kept := oacc.kept
      orphan_dropped := oacc.dropped })

/-!
The CSV validator / model builder `validate_and_build`.
-/

/-- Failure of `validate_and_build`: a `SystemExit` with its message, or the
uncaught Python `IndexError` raised by `header[0]` when the header row is the
empty list (the check `if not header` comes only after that indexing). -/
inductive VErr where
  | formatError : String → VErr
  | indexError : VErr
deriving Repr, DecidableEq

/-- Python `str.strip()` whitespace (the ASCII whitespace characters). -/
def pyIsSpace (c : Char) : Bool :=
  c = ' ' || c = '\t' || c = '\n' || c = '\x0d' || c = '\x0b' || c = '\x0c'

/-- Python `s.strip()`: remove leading and trailing whitespace. -/
def pystrip (s : String) : String :=
  String.mk (((s.data.dropWhile pyIsSpace).reverse.dropWhile pyIsSpace).reverse)

/-- Python `s.lower()` (on the ASCII letters the inputs use). -/
def pylower (s : String) : String :=
  String.mk (s.data.map Char.toLower)

/-- Python `s.startswith(pre)`. -/
def pystartswith (s pre : String) : Bool :=
  pre.data.isPrefixOf s.data

/-- Python string comparison on character lists: lexicographic by code point. -/
def pyStrLeL : List Char → List Char → Bool
  | [], _ => true
  | _ :: _, [] => false
  | a :: as, b :: bs =>
    if a.toNat < b.toNat then true
    else if b.toNat < a.toNat then false
    else pyStrLeL as bs

/-- Python `a <= b` on strings: lexicographic by code point. -/
def pyStrLe (a b : String) : Bool := pyStrLeL a.data b.data

/-- `s.lstrip` of the byte-order mark: remove every leading byte-order mark. -/
def stripBOM (s : String) : String :=
  String.mk (s.data.dropWhile (fun c => c = '\uFEFF'))

/-- `sanitize_lang_name`: strip, `-`/space to `_`, every other non-identifier
character to `_`, prepend `_` on a leading digit, `"unnamed"` if empty. -/
def sanitize_lang_name (s : String) : String :=
  let s0 := (pystrip s).data.map (fun c => if c = '-' then '_' else c)
  let s1 := s0.map (fun c => if c = ' ' then '_' else c)
  let s2 := s1.map (fun c => if c.isAlphanum || c = '_' then c else '_')
  let s3 := match s2 with
    | [] => ([] : List Char)
    | c :: _ => if c.isDigit then '_' :: s2 else s2
  if s3.isEmpty then "unnamed" else String.mk s3

/-- The collision loop `while cname in seen: i += 1; cname = f"{base}_{i}"`,
with enough fuel that the fallback for exhausted fuel is never reached
(the candidates are pairwise distinct, so at most `seen.length` of them can
collide). -/
def uniqLoop (seen : List String) (base : String) : Nat → Nat → String
  | 0, i => base ++ "_" ++ toString i
  | fuel + 1, i =>
    let c := base ++ "_" ++ toString i
    if c ∈ seen then uniqLoop seen base fuel (i + 1) else c

/-- Disambiguate a sanitized language name against the already-used names. -/
def uniquify (seen : List String) (base : String) : String :=
  if base ∈ seen then uniqLoop seen base (seen.length + 1) 2 else base

/-- Accumulator of the language-header loop of `validate_and_build`. -/
structure LangAcc where
  langs : List String
  lang_map : List (String × String)
  seen : List String
deriving Repr, DecidableEq

/-- One step of the language-header loop: sanitize, disambiguate, record. -/
def langStep (acc : LangAcc) (name : String) : LangAcc :=
  let cname := uniquify acc.seen (sanitize_lang_name name)
  { langs := acc.langs ++ [cname]
    lang_map := dassign acc.lang_map name cname
    seen := acc.seen ++ [cname] }

/-- Accumulator of the data-row loop of `validate_and_build`. -/
structure BuildAcc where
  data : List Row
  key_seen : List String
  dup_keys : List String
  empty_count : List (String × Nat)
deriving Repr, DecidableEq

/-- `empty_count[cname] += 1`. -/
def ecIncr (m : List (String × Nat)) (k : String) : List (String × Nat) :=
  m.map (fun p => if p.1 == k then (p.1, p.2 + 1) else p)

/-- One step of the inner loop `for i, original in enumerate(raw_langs, start=1)`:
build the record's value fields and count empty cells. -/
def itemStep (lang_map : List (String × String)) (r : List String)
    (acc : List (String × String) × List (String × Nat)) (p : Nat × String) :
    List (String × String) × List (String × Nat) :=
  let cname := dget lang_map p.2
  let val := pystrip ((r.get? p.1).getD "")
  (dassign acc.1 cname val, if val = "" then ecIncr acc.2 cname else acc.2)

/-- One step of the data-row loop: skip blank and comment rows, pad short rows,
track duplicate keys, and append the built record.  (The Python record is a
dictionary holding `"key"` plus the language fields; here the key is kept in
the separate `Row.key` field.) -/
def rowStep (raw_langs : List String) (lang_map : List (String × String))
    (acc : BuildAcc) (r : List String) : BuildAcc :=
  if r.all (fun c => c = "") then acc
  else
    let r := if r.length < 1 + raw_langs.length
             then r ++ List.replicate (1 + raw_langs.length - r.length) "" else r
    let key := pystrip (r.headD "")
    if key = "" ∨ pystartswith key "#" ∨ pystartswith key "//" then acc
    else
      let isDup := key ∈ acc.key_seen
      let itemec := (raw_langs.enumFrom 1).foldl (itemStep lang_map r) ([], acc.empty_count)
      { data := acc.data ++ [⟨key, itemec.1⟩]
        key_seen := if isDup then acc.key_seen else acc.key_seen ++ [key]
        dup_keys := if isDup then acc.dup_keys ++ [key] else acc.dup_keys
        empty_count := itemec.2 }

/-- The statistics dictionary returned by `validate_and_build`. -/
structure Stats where
  rows : Nat
  langs : List String
  empty_per_lang : List (String × Nat)
  duplicates : List String
  sortedFlag : Bool
deriving Repr, DecidableEq

/-- Python `sorted(set(l))` on strings. -/
def pysortedset (l : List String) : List String :=
  l.dedup.mergeSort pyStrLe

/-- `validate_and_build` of `csv_to_i18n.py`: validate the header, build the
language list and the record list, and return them with statistics. -/
def validate_and_build (rows : List (List String)) (sort_keys : Bool) :
    Except VErr (List String × List Row × Stats) :=
  match rows with
  | [] => .error (.formatError "CSV is empty.")
  | header :: body =>
    match header with
    | [] => .error .indexError
    | h0raw :: hrest =>
      let h0 := stripBOM h0raw
      if (h0 :: hrest).isEmpty then .error (.formatError "CSV header is empty.")
      else if pylower (pystrip h0) ≠ "key" then
        .error (.formatError "First column must be 'key' (case-insensitive).")
      else if hrest.isEmpty then
        .error (.formatError "No language columns found (need at least one after 'key').")
      else
        let lacc := hrest.foldl langStep ⟨[], [], []⟩
        let langs := lacc.langs
        let bacc := body.foldl (rowStep hrest lacc.lang_map)
          ⟨[], [], [], langs.map (fun ln => (ln, 0))⟩
        let data := if sort_keys then bacc.data.mergeSort (fun a b => pyStrLe a.key b.key)
                    else bacc.data
        .ok (langs, data,
          { rows := data.length
            langs := langs
            empty_per_lang := bacc.empty_count
            duplicates := pysortedset bacc.dup_keys
            sortedFlag := sort_keys })

/-!
The emitter helpers: `cxx_escape` and the per-record line of `generate_cpp`.
Each single-character `str.replace` pass is a character expansion; the
two-character pass `replace("\r\n", "\n")` is the leftmost-scan `normCRLF`.
-/

/-- Expand every character of a string through `f` (one full
`str.replace(old, new)` pass for a one-character `old`). -/
def charExpand (f : Char → List Char) : List Char → List Char
  | [] => []
  | c :: cs => f c ++ charExpand f cs

/-- `replace("\\", "\\\\")`. -/
def ebFun (c : Char) : List Char := if c = '\\' then ['\\', '\\'] else [c]

/-- `replace('"', '\\"')`. -/
def eqFun (c : Char) : List Char := if c = '"' then ['\\', '"'] else [c]

/-- `replace("\r", "\n")`. -/
def ecrFun (c : Char) : List Char := if c = '\r' then ['\n'] else [c]

/-- `replace("\t", "\\t")`. -/
def etabFun (c : Char) : List Char := if c = '\t' then ['\\', 't'] else [c]

/-- `replace("\n", "\\n")`. -/
def elfFun (c : Char) : List Char := if c = '\n' then ['\\', 'n'] else [c]

/-- `replace("\r\n", "\n")`: leftmost non-overlapping scan. -/
def normCRLF : List Char → List Char
  | [] => []
  | [c] => [c]
  | c :: c2 :: cs =>
    if c = '\r' ∧ c2 = '\n' then '\n' :: normCRLF cs
    else c :: normCRLF (c2 :: cs)

/-- `cxx_escape` of `csv_to_i18n.py`: escape a value for a C++ string literal
(the six `str.replace` passes, in source order). -/
def cxx_escape (s : String) : String :=
  String.mk (charExpand elfFun (charExpand etabFun (charExpand ecrFun
    (normCRLF (charExpand eqFun (charExpand ebFun s.data))))))

/-- The record line emitted by `generate_cpp` for one row:
`'    { "<key>", "<v1>", ... },'` with every field escaped. -/
def cppRowLine (langs : List String) (row : Row) : String :=
  "    \x7b \"" ++ cxx_escape row.key ++ "\", \"" ++
    String.intercalate "\", \"" (langs.map (fun ln => cxx_escape (dget row.vals ln))) ++
    "\" \x7d,"

/-- `generate_cpp` of `csv_to_i18n.py`: the full emitted table source text. -/
def generate_cpp (langs : List String) (data : List Row) : String :=
  String.intercalate "\n"
    (["// Auto-generated from CSV — DO NOT EDIT MANUALLY",
      "#include \"i18n.h\"",
      "#include \"i18n_gen_export.h\"\n",
      "const Entry D[] = \x7b"]
     ++ data.map (cppRowLine langs)
     ++ ["\x7d;\n",
         "extern \"C\" \x7b",
         "    const Entry* g_i18n_gen_table = D;",
         "    const size_t g_i18n_gen_count = sizeof(D) / sizeof(D[0]);",
         "\x7d"]) ++ "\n"

/-- Combined per-character effect of the backslash and quote passes. -/
def bqChar (c : Char) : List Char :=
  if c = '\\' then ['\\', '\\'] else if c = '"' then ['\\', '"'] else [c]

/-- Combined per-character effect of the CR, tab and LF passes. -/
def crtlChar (c : Char) : List Char :=
  if c = '\r' then ['\\', 'n'] else if c = '\n' then ['\\', 'n']
  else if c = '\t' then ['\\', 't'] else [c]

/-- Per-character escape required of the emitter: backslash and quote escaped
with a backslash, tab an explicit two-character `\t`, line-feed (and a bare
CR, which is normalized to line-feed) an explicit two-character `\n`. -/
def escChar (c : Char) : List Char :=
  if c = '\\' then ['\\', '\\'] else if c = '"' then ['\\', '"']
  else if c = '\t' then ['\\', 't'] else if c = '\n' then ['\\', 'n']
  else if c = '\r' then ['\\', 'n'] else [c]

/-- Single-pass specification of the escaping required of the emitter: a CRLF
pair collapses to one escaped line-feed, every other character is escaped by
`escChar`. -/
def escapeSpec : List Char → List Char
  | [] => []
  | [c] => escChar c
  | c :: c2 :: cs =>
    if c = '\r' ∧ c2 = '\n' then '\\' :: 'n' :: escapeSpec cs
    else escChar c ++ escapeSpec (c2 :: cs)

/-- The secondary model obtained by feeding a model back as the existing data:
one dictionary entry per record, with a value for every language of the model
(this is the shape `parse_existing_table` produces for a freshly generated
table). -/
def selfDict (langs : List String) (data : List Row) : EDict :=
  data.map (fun r => (r.key, langs.map (fun ln => (ln, dget r.vals ln))))

/-!
Lemmas about the dictionary helpers and the merge engine.
-/

theorem dget_nil (ln : String) : dget [] ln = "" := rfl

theorem dget_map_self (f : String → String) (l : List String) (ln : String)
    (h : ln ∈ l) : dget (l.map (fun x => (x, f x))) ln = f ln := by
  induction l with
  | nil => cases h
  | cons x t ih =>
    by_cases hx : x = ln
    · subst hx
      rw [List.map_cons, dget, List.find?_cons_of_pos _ (by simp)]
      rfl
    · have h' : ln ∈ t := by
        rcases List.mem_cons.1 h with h | h
        · exact absurd h.symm hx
        · exact h
      rw [List.map_cons, dget, List.find?_cons_of_neg _ (by simp [hx]), ← dget]
      exact ih h'

theorem mergeLangs_nil (a : List String) : mergeLangs a [] = a := rfl

theorem mergeLangs_mem (a b : List String) (x : String) :
    x ∈ mergeLangs a b ↔ x ∈ a ∨ x ∈ b := by
  suffices h : ∀ (b acc : List String),
      (x ∈ b.foldl (fun acc ln => if ln ∈ acc then acc else acc ++ [ln]) acc ↔
        x ∈ acc ∨ x ∈ b) by
    exact h b a
  intro b
  induction b with
  | nil => intro acc; simp
  | cons y t ih =>
    intro acc
    simp only [List.foldl_cons]
    by_cases hy : y ∈ acc
    · simp only [if_pos hy, ih acc]
      constructor
      · rintro (h | h)
        · exact Or.inl h
        · exact Or.inr (List.mem_cons_of_mem _ h)
      · rintro (h | h)
        · exact Or.inl h
        · rcases List.mem_cons.1 h with rfl | h
          · exact Or.inl hy
          · exact Or.inr h
    · simp only [if_neg hy, ih (acc ++ [y])]
      simp only [List.mem_append, List.mem_singleton, List.mem_cons]
      tauto

theorem mergeLangs_eq_of_nodup (a b : List String) (hb : b.Nodup) :
    mergeLangs a b = a ++ b.filter (fun ln => ln ∉ a) := by
  suffices h : ∀ (b : List String), b.Nodup → ∀ acc : List String,
      b.foldl (fun acc ln => if ln ∈ acc then acc else acc ++ [ln]) acc =
        acc ++ b.filter (fun ln => ln ∉ acc) by
    exact h b hb a
  intro b hb
  induction b with
  | nil => intro acc; simp
  | cons y t ih =>
    intro acc
    have hyt : y ∉ t := (List.nodup_cons.1 hb).1
    have ht : t.Nodup := (List.nodup_cons.1 hb).2
    simp only [List.foldl_cons]
    by_cases hy : y ∈ acc
    · rw [if_pos hy, ih ht acc]
      simp [List.filter_cons, hy]
    · rw [if_neg hy, ih ht (acc ++ [y])]
      have hfilter : t.filter (fun ln => decide (ln ∉ acc ++ [y])) =
          t.filter (fun ln => decide (ln ∉ acc)) := by
        apply List.filter_congr
        intro z hz
        have hzy : z ≠ y := fun h => hyt (h ▸ hz)
        simp [List.mem_append, hzy, hy]
      simp only [hfilter, List.filter_cons, hy]
      simp [List.append_assoc]

theorem mergeLangs_nodup (a b : List String) (ha : a.Nodup) :
    (mergeLangs a b).Nodup := by
  suffices h : ∀ (b acc : List String), acc.Nodup →
      (b.foldl (fun acc ln => if ln ∈ acc then acc else acc ++ [ln]) acc).Nodup by
    exact h b a ha
  intro b
  induction b with
  | nil => intro acc h; simpa using h
  | cons y t ih =>
    intro acc hacc
    simp only [List.foldl_cons]
    by_cases hy : y ∈ acc
    · rw [if_pos hy]; exact ih acc hacc
    · rw [if_neg hy]
      refine ih (acc ++ [y]) ?_
      simpa [List.nodup_append] using ⟨hacc, hy⟩

theorem mergeLangs_noop (a b : List String) (h : ∀ x ∈ b, x ∈ a) :
    mergeLangs a b = a := by
  unfold mergeLangs
  induction b with
  | nil => rfl
  | cons y t ih =>
    rw [List.foldl_cons, if_pos (h y (List.mem_cons_self y t))]
    exact ih (fun x hx => h x (List.mem_cons_of_mem _ hx))

theorem inCsv_iff (cd : List Row) (k : String) :
    inCsv cd k = true ↔ k ∈ cd.map Row.key := by
  simp only [inCsv, List.any_eq_true, List.mem_map, beq_iff_eq]

theorem filter_key_eq (cd : List Row) (r0 : Row) (k : String)
    (hnd : (cd.map Row.key).Nodup) (h0 : r0 ∈ cd) (hk : r0.key = k) :
    cd.filter (fun r => r.key == k) = [r0] := by
  induction cd with
  | nil => cases h0
  | cons h t ih =>
    have hnd0 : (h.key :: t.map Row.key).Nodup := by
      simpa using hnd
    have hnotin : h.key ∉ t.map Row.key := (List.nodup_cons.1 hnd0).1
    have hndt : (t.map Row.key).Nodup := (List.nodup_cons.1 hnd0).2
    by_cases hhk : h.key = k
    · have hr0 : r0 = h := by
        rcases List.mem_cons.1 h0 with rfl | hmem
        · rfl
        · exfalso
          exact hnotin (hhk ▸ hk ▸ (List.mem_map.2 ⟨r0, hmem, rfl⟩))
      subst hr0
      have hnone : t.filter (fun r => r.key == k) = [] := by
        apply List.filter_eq_nil_iff.2
        intro r hr hbeq
        have hrk : r.key = k := by simpa using hbeq
        exact hnotin (hhk ▸ hrk ▸ List.mem_map.2 ⟨r, hr, rfl⟩)
      simp [List.filter_cons, hhk, hnone]
    · have hr0 : r0 ∈ t := by
        rcases List.mem_cons.1 h0 with rfl | hmem
        · exact absurd hk hhk
        · exact hmem
      have := ih hndt hr0
      simp [List.filter_cons, hhk, this]

theorem csvMap_eq (L : List String) (cd : List Row) (r0 : Row) (k : String)
    (hnd : (cd.map Row.key).Nodup) (h0 : r0 ∈ cd) (hk : r0.key = k) :
    csvMap L cd k = some (csvRestrict L r0) := by
  rw [csvMap, filter_key_eq cd r0 k hnd h0 hk]
  rfl

theorem csvMap_none (L : List String) (cd : List Row) (k : String)
    (h : k ∉ cd.map Row.key) : csvMap L cd k = none := by
  rw [csvMap]
  have : cd.filter (fun r => r.key == k) = [] := by
    apply List.filter_eq_nil_iff.2
    intro r hr hbeq
    exact h (List.mem_map.2 ⟨r, hr, by simpa using hbeq⟩)
  rw [this]; rfl

theorem rowFor_key (L : List String) (pr : String) (ow : Bool)
    (sc se : Option (List (String × String))) (k : String) :
    (rowFor L pr ow sc se k).key = k := by
  rw [rowFor]
  split
  · rfl
  · split <;> rfl

theorem rowFor_vals_fst (L : List String) (pr : String) (ow : Bool)
    (sc se : Option (List (String × String))) (k : String) :
    (rowFor L pr ow sc se k).vals.map Prod.fst = L := by
  rw [rowFor]
  split
  · simp [List.map_map, Function.comp_def]
  · split <;> simp [List.map_map, Function.comp_def]


theorem orphan_foldl (cd : List Row) (dr : Bool) (ek : List String) :
    ∀ init : OrphanAcc,
      (ek.foldl (orphanStep cd dr) init).keys
          = init.keys ++ (if dr then [] else ek.filter (fun k => !(inCsv cd k))) ∧
      (ek.foldl (orphanStep cd dr) init).kept
          = init.kept + (if dr then 0 else (ek.filter (fun k => !(inCsv cd k))).length) ∧
      (ek.foldl (orphanStep cd dr) init).dropped
          = init.dropped + (if dr then (ek.filter (fun k => !(inCsv cd k))).length else 0) := by
  induction ek with
  | nil =>
    intro init
    cases dr <;> simp
  | cons x t ih =>
    intro init
    rw [List.foldl_cons]
    by_cases hx : inCsv cd x = true
    · rw [orphanStep, if_pos hx]
      obtain ⟨h1, h2, h3⟩ := ih init
      rw [h1, h2, h3]
      simp [List.filter_cons, hx]
    · rw [orphanStep, if_neg hx]
      cases dr with
      | true =>
        rw [if_pos rfl]
        obtain ⟨h1, h2, h3⟩ := ih { init with dropped := init.dropped + 1 }
        refine ⟨by simpa using h1, by simpa using h2, ?_⟩
        rw [h3]
        simp only [List.filter_cons, hx]
        simp
        omega
      | false =>
        rw [if_neg Bool.false_ne_true]
        obtain ⟨h1, h2, h3⟩ :=
          ih { keys := init.keys ++ [x], kept := init.kept + 1, dropped := init.dropped }
        refine ⟨?_, ?_, by simpa using h3⟩
        · rw [h1]
          simp [List.filter_cons, hx, List.append_assoc]
        · rw [h2]
          simp only [List.filter_cons, hx]
          simp
          omega

theorem merge_models_langs (cl : List String) (cd : List Row) (el : List String)
    (ed : EDict) (pr : String) (ow dr : Bool) (h : Option (List String)) :
    (merge_models cl cd el ed pr ow dr h).1 = mergeLangs cl el := rfl

theorem merge_models_rows (cl : List String) (cd : List Row) (el : List String)
    (ed : EDict) (pr : String) (ow dr : Bool) (h : Option (List String)) :
    (merge_models cl cd el ed pr ow dr h).2.1 =
      ((ed.map (fun p => p.1)).foldl (orphanStep cd dr) ⟨baseKeys h cd, 0, 0⟩).keys.map
        (fun k => rowFor (mergeLangs cl el) pr ow (csvMap (mergeLangs cl el) cd k)
          (edget ed k) k) := rfl

theorem merge_models_counters (cl : List String) (cd : List Row) (el : List String)
    (ed : EDict) (pr : String) (ow dr : Bool) (h : Option (List String)) :
    (merge_models cl cd el ed pr ow dr h).2.2 =
      { added := (((ed.map (fun p => p.1)).foldl (orphanStep cd dr)
            ⟨baseKeys h cd, 0, 0⟩).keys.map
            (fun k => classify (mergeLangs cl el) pr ow (csvMap (mergeLangs cl el) cd k)
              (edget ed k))).count .addedK
        updated := (((ed.map (fun p => p.1)).foldl (orphanStep cd dr)
            ⟨baseKeys h cd, 0, 0⟩).keys.map
            (fun k => classify (mergeLangs cl el) pr ow (csvMap (mergeLangs cl el) cd k)
              (edget ed k))).count .updatedK
        unchanged := (((ed.map (fun p => p.1)).foldl (orphanStep cd dr)
            ⟨baseKeys h cd, 0, 0⟩).keys.map
            (fun k => classify (mergeLangs cl el) pr ow (csvMap (mergeLangs cl el) cd k)
              (edget ed k))).count .unchangedK
        orphan_kept := ((ed.map (fun p => p.1)).foldl (orphanStep cd dr)
            ⟨baseKeys h cd, 0, 0⟩).kept
        orphan_dropped := ((ed.map (fun p => p.1)).foldl (orphanStep cd dr)
            ⟨baseKeys h cd, 0, 0⟩).dropped } := rfl

theorem mem_merge_rows (cl : List String) (cd : List Row) (el : List String)
    (ed : EDict) (pr : String) (ow dr : Bool) (h : Option (List String))
    (k : String) (r : Row)
    (hr : r ∈ (merge_models cl cd el ed pr ow dr h).2.1) (hk : r.key = k) :
    r = rowFor (mergeLangs cl el) pr ow (csvMap (mergeLangs cl el) cd k)
      (edget ed k) k := by
  rw [merge_models_rows] at hr
  obtain ⟨k', _, rfl⟩ := List.mem_map.1 hr
  have hkk : k' = k := by rw [← hk, rowFor_key]
  rw [hkk]

theorem dget_rowFor (L : List String) (pr : String) (ow : Bool)
    (sc se : Option (List (String × String))) (k ln : String) (hln : ln ∈ L) :
    dget (rowFor L pr ow sc se k).vals ln =
      (if truthy sc && !truthy se then oget sc ln
       else if truthy se && !truthy sc then oget se ln
       else mergeValue pr ow (oget sc ln) (oget se ln)) := by
  by_cases h1 : (truthy sc && !truthy se) = true
  · rw [rowFor, if_pos h1, if_pos h1]
    exact dget_map_self _ L ln hln
  · by_cases h2 : (truthy se && !truthy sc) = true
    · rw [rowFor, if_neg h1, if_pos h2, if_neg h1, if_pos h2]
      exact dget_map_self _ L ln hln
    · rw [rowFor, if_neg h1, if_neg h2, if_neg h1, if_neg h2]
      exact dget_map_self _ L ln hln

theorem oget_csvRestrict (L : List String) (r0 : Row) (ln : String) (hln : ln ∈ L) :
    oget (some (csvRestrict L r0)) ln = dget r0.vals ln := by
  rw [oget, csvRestrict]
  exact dget_map_self _ L ln hln

theorem truthy_csvRestrict (L : List String) (r0 : Row) (hL : L ≠ []) :
    truthy (some (csvRestrict L r0)) = true := by
  rw [truthy, csvRestrict]
  simpa using hL

theorem edget_selfDict (langs : List String) (data : List Row) (r0 : Row) (k : String)
    (hnd : (data.map Row.key).Nodup) (h0 : r0 ∈ data) (hk : r0.key = k) :
    edget (selfDict langs data) k =
      some (langs.map (fun ln => (ln, dget r0.vals ln))) := by
  induction data with
  | nil => cases h0
  | cons h t ih =>
    have hnd0 : (h.key :: t.map Row.key).Nodup := by
      simpa using hnd
    have hnotin : h.key ∉ t.map Row.key := (List.nodup_cons.1 hnd0).1
    have hndt : (t.map Row.key).Nodup := (List.nodup_cons.1 hnd0).2
    by_cases hhk : h.key = k
    · have hr0 : r0 = h := by
        rcases List.mem_cons.1 h0 with rfl | hmem
        · rfl
        · exact absurd (hhk ▸ hk ▸ (List.mem_map.2 ⟨r0, hmem, rfl⟩)) hnotin
      subst hr0
      rw [selfDict, List.map_cons, edget, List.find?_cons_of_pos _ (by simpa using hhk)]
      rfl
    · have hr0 : r0 ∈ t := by
        rcases List.mem_cons.1 h0 with rfl | hmem
        · exact absurd hk hhk
        · exact hmem
      rw [selfDict, List.map_cons, edget, List.find?_cons_of_neg _ (by simpa using hhk)]
      rw [← edget, ← selfDict]
      exact ih hndt hr0

theorem mergeValue_self (pr : String) (ow : Bool) (p : String) :
    mergeValue pr ow p p = p := by
  unfold mergeValue
  split
  · split <;> rfl
  · split
    · split <;> rfl
    · split <;> rfl

theorem mergeValue_conservative (pr : String) (p s : String)
    (h : p ≠ "" ∨ s ≠ "") : mergeValue pr false p s ≠ "" := by
  unfold mergeValue
  rw [if_neg Bool.false_ne_true]
  by_cases hp : p = "" <;> by_cases hs : s = "" <;> split <;> simp_all

theorem mergeValue_overwrite_csv (p s : String) : mergeValue "csv" true p s = p := rfl

theorem oget_some (m : List (String × String)) (ln : String) :
    oget (some m) ln = dget m ln := rfl

/-- Claim C5: for every pair of input language lists (with the secondary list
duplicate-free, as the parsers guarantee), the merged language list returned by
`merge_models` is the primary list concatenated with exactly those secondary
languages not already present, keeping each side's relative order; hence it
contains every primary and every secondary language, with the primary list as
a prefix. -/
theorem C5_merged_language_union (cl el : List String) (cd : List Row) (ed : EDict)
    (pr : String) (ow dr : Bool) (h : Option (List String)) (hel : el.Nodup) :
    (merge_models cl cd el ed pr ow dr h).1 = cl ++ el.filter (fun ln => ln ∉ cl) ∧
    (∀ ln ∈ cl, ln ∈ (merge_models cl cd el ed pr ow dr h).1) ∧
    (∀ ln ∈ el, ln ∈ (merge_models cl cd el ed pr ow dr h).1) := by
  rw [merge_models_langs]
  exact ⟨mergeLangs_eq_of_nodup cl el hel,
    fun ln hln => (mergeLangs_mem cl el ln).2 (Or.inl hln),
    fun ln hln => (mergeLangs_mem cl el ln).2 (Or.inr hln)⟩

/-- Witness for C5 at a concrete input. -/
theorem C5_merged_language_union_witness :
    (merge_models ["en"] [] ["fr", "en"] [] "csv" false false none).1
        = ["en"] ++ ["fr", "en"].filter (fun ln => ln ∉ ["en"]) ∧
    "fr" ∈ (merge_models ["en"] [] ["fr", "en"] [] "csv" false false none).1 := by
  have h := C5_merged_language_union ["en"] ["fr", "en"] [] [] "csv" false false none
    (by decide)
  exact ⟨h.1, h.2.2 "fr" (by decide)⟩

/-- Claim C10: every record returned by `merge_models` carries exactly one
value field per merged language, in merged-language order, with no missing and
no extra field (the merged language list being duplicate-free when the primary
language list is). -/
theorem C10_merged_rows_wellformed (cl el : List String) (cd : List Row) (ed : EDict)
    (pr : String) (ow dr : Bool) (h : Option (List String)) (r : Row)
    (hcl : cl.Nodup)
    (hr : r ∈ (merge_models cl cd el ed pr ow dr h).2.1) :
    r.vals.map Prod.fst = (merge_models cl cd el ed pr ow dr h).1 ∧
    (merge_models cl cd el ed pr ow dr h).1.Nodup := by
  constructor
  · rw [merge_models_rows] at hr
    obtain ⟨k', _, rfl⟩ := List.mem_map.1 hr
    rw [merge_models_langs]
    exact rowFor_vals_fst _ _ _ _ _ _
  · rw [merge_models_langs]
    exact mergeLangs_nodup cl el hcl

/-- Witness for C10 at a concrete input. -/
theorem C10_merged_rows_wellformed_witness :
    (⟨"a", [("en", "x"), ("fr", "")]⟩ : Row).vals.map Prod.fst
        = (merge_models ["en"] [⟨"a", [("en", "x")]⟩] ["fr"] [("b", [("fr", "y")])]
            "csv" false false none).1 ∧
    (merge_models ["en"] [⟨"a", [("en", "x")]⟩] ["fr"] [("b", [("fr", "y")])]
        "csv" false false none).1.Nodup := by
  exact C10_merged_rows_wellformed ["en"] ["fr"] [⟨"a", [("en", "x")]⟩]
    [("b", [("fr", "y")])] "csv" false false none ⟨"a", [("en", "x"), ("fr", "")]⟩
    (by decide) (by decide)

/-- Claim C3: with `overwrite_all = true` and `prefer = "csv"`, the merged
value of a key present in both models equals the primary (CSV) value exactly,
for every merged language — including when that value is the empty string. -/
theorem C3_overwrite_prefer_csv (cl el : List String) (cd : List Row) (ed : EDict)
    (dr : Bool) (h : Option (List String)) (k ln : String) (r0 : Row)
    (e : List (String × String)) (r : Row)
    (hnd : (cd.map Row.key).Nodup) (h0 : r0 ∈ cd) (hk0 : r0.key = k)
    (he : edget ed k = some e)
    (hln : ln ∈ (merge_models cl cd el ed "csv" true dr h).1)
    (hr : r ∈ (merge_models cl cd el ed "csv" true dr h).2.1) (hrk : r.key = k) :
    dget r.vals ln = dget r0.vals ln := by
  rw [merge_models_langs] at hln
  have hrEq := mem_merge_rows cl cd el ed "csv" true dr h k r hr hrk
  have hLne : mergeLangs cl el ≠ [] := by
    intro hnil
    rw [hnil] at hln
    cases hln
  have hsc := csvMap_eq (mergeLangs cl el) cd r0 k hnd h0 hk0
  rw [hrEq, hsc, he,
    dget_rowFor (mergeLangs cl el) "csv" true (some (csvRestrict (mergeLangs cl el) r0))
      (some e) k ln hln]
  have htc : truthy (some (csvRestrict (mergeLangs cl el) r0)) = true :=
    truthy_csvRestrict (mergeLangs cl el) r0 hLne
  by_cases hcase : (truthy (some (csvRestrict (mergeLangs cl el) r0))
      && !truthy (some e)) = true
  · rw [if_pos hcase]
    exact oget_csvRestrict (mergeLangs cl el) r0 ln hln
  · rw [if_neg hcase, if_neg (by simp [htc]), mergeValue_overwrite_csv]
    exact oget_csvRestrict (mergeLangs cl el) r0 ln hln

/-- Witness for C3 at a concrete input where the CSV value is empty and the
existing value is not: the merged value is the empty CSV value. -/
theorem C3_overwrite_prefer_csv_witness :
    dget (⟨"a", [("en", "")]⟩ : Row).vals "en" = dget [("en", "")] "en" := by
  exact C3_overwrite_prefer_csv ["en"] [] [⟨"a", [("en", "")]⟩]
    [("a", [("en", "v")])] false none "a" "en" ⟨"a", [("en", "")]⟩ [("en", "v")]
    ⟨"a", [("en", "")]⟩ (by decide) (by decide) (by decide) (by decide) (by decide)
    (by decide) (by decide)

/-- Claim C2: in conservative mode (`overwrite_all = false`), for a key present
in both models and any merged language, the merged value is non-empty whenever
the CSV value or the existing value for that key and language is non-empty. -/
theorem C2_conservative_nonempty (cl el : List String) (cd : List Row) (ed : EDict)
    (pr : String) (dr : Bool) (h : Option (List String)) (k ln : String) (r0 : Row)
    (e : List (String × String)) (r : Row)
    (hnd : (cd.map Row.key).Nodup) (h0 : r0 ∈ cd) (hk0 : r0.key = k)
    (he : edget ed k = some e)
    (hln : ln ∈ (merge_models cl cd el ed pr false dr h).1)
    (hr : r ∈ (merge_models cl cd el ed pr false dr h).2.1) (hrk : r.key = k)
    (hne : dget r0.vals ln ≠ "" ∨ dget e ln ≠ "") :
    dget r.vals ln ≠ "" := by
  rw [merge_models_langs] at hln
  have hrEq := mem_merge_rows cl cd el ed pr false dr h k r hr hrk
  have hLne : mergeLangs cl el ≠ [] := by
    intro hnil
    rw [hnil] at hln
    cases hln
  have hsc := csvMap_eq (mergeLangs cl el) cd r0 k hnd h0 hk0
  rw [hrEq, hsc, he,
    dget_rowFor (mergeLangs cl el) pr false (some (csvRestrict (mergeLangs cl el) r0))
      (some e) k ln hln]
  have htc : truthy (some (csvRestrict (mergeLangs cl el) r0)) = true :=
    truthy_csvRestrict (mergeLangs cl el) r0 hLne
  by_cases hte : truthy (some e) = true
  · rw [if_neg (by simp [hte]), if_neg (by simp [htc]),
      oget_csvRestrict (mergeLangs cl el) r0 ln hln, oget_some]
    exact mergeValue_conservative pr _ _ hne
  · have he0 : e = [] := by
      cases e with
      | nil => rfl
      | cons p t => simp [truthy] at hte
    rw [if_pos (by simp [htc, Bool.not_eq_true _ |>.mp hte]),
      oget_csvRestrict (mergeLangs cl el) r0 ln hln]
    rcases hne with hne | hne
    · exact hne
    · rw [he0] at hne
      exact absurd rfl hne

/-- Witness for C2 at a concrete input: the CSV cell is empty, the existing
value is kept, and the merged value is non-empty. -/
theorem C2_conservative_nonempty_witness :
    dget (⟨"a", [("en", "v")]⟩ : Row).vals "en" ≠ "" := by
  exact C2_conservative_nonempty ["en"] [] [⟨"a", [("en", "")]⟩]
    [("a", [("en", "v")])] "csv" false none "a" "en" ⟨"a", [("en", "")]⟩
    [("en", "v")] ⟨"a", [("en", "v")]⟩ (by decide) (by decide) (by decide)
    (by decide) (by decide) (by decide) (by decide) (by decide)

theorem classify_self (L : List String) (pr : String) (ow : Bool)
    (A : List (String × String)) : classify L pr ow (some A) (some A) = .unchangedK := by
  simp [classify, rowChangedB, mergeValue_self]

theorem selfDict_keys (langs : List String) (data : List Row) :
    (selfDict langs data).map (fun p => p.1) = data.map Row.key := by
  simp [selfDict, List.map_map, Function.comp_def]

/-- Claim C6: merging a model (with duplicate-free keys) with itself — same
language list and same records on both sides — classifies every key as
unchanged and produces zero added and zero orphan counters, for every policy. -/
theorem C6_merge_idempotent (langs : List String) (data : List Row) (pr : String)
    (ow dr : Bool) (hnd : (data.map Row.key).Nodup) :
    (merge_models langs data langs (selfDict langs data) pr ow dr none).2.2.unchanged
        = data.length ∧
    (merge_models langs data langs (selfDict langs data) pr ow dr none).2.2.added = 0 ∧
    (merge_models langs data langs (selfDict langs data) pr ow dr none).2.2.orphan_kept
        = 0 ∧
    (merge_models langs data langs (selfDict langs data) pr ow dr none).2.2.orphan_dropped
        = 0 := by
  have hM : mergeLangs langs langs = langs := mergeLangs_noop langs langs (fun x hx => hx)
  have hAll : ∀ k ∈ (selfDict langs data).map (fun p => p.1), inCsv data k = true := by
    intro k hk
    rw [selfDict_keys] at hk
    exact (inCsv_iff data k).2 hk
  have hfilter : ((selfDict langs data).map (fun p => p.1)).filter
      (fun k => !(inCsv data k)) = [] := by
    apply List.filter_eq_nil_iff.2
    intro k hk
    simp [hAll k hk]
  obtain ⟨hkeys, hkept, hdropped⟩ :=
    orphan_foldl data dr ((selfDict langs data).map (fun p => p.1))
      ⟨baseKeys none data, 0, 0⟩
  have hkeys' : (((selfDict langs data).map (fun p => p.1)).foldl (orphanStep data dr)
      ⟨baseKeys none data, 0, 0⟩).keys = data.map Row.key := by
    rw [hkeys, hfilter]
    cases dr <;> simp [baseKeys]
  have hcls : ∀ k ∈ data.map Row.key,
      classify (mergeLangs langs langs) pr ow (csvMap (mergeLangs langs langs) data k)
        (edget (selfDict langs data) k) = MClass.unchangedK := by
    intro k hk
    obtain ⟨r0, hr0, rfl⟩ := List.mem_map.1 hk
    rw [hM, csvMap_eq langs data r0 r0.key hnd hr0 rfl,
      edget_selfDict langs data r0 r0.key hnd hr0 rfl]
    exact classify_self langs pr ow (csvRestrict langs r0)
  rw [merge_models_counters]
  refine ⟨?_, ?_, ?_, ?_⟩
  · rw [hkeys']
    rw [show data.length = ((List.map Row.key data).map
        (fun k => classify (mergeLangs langs langs) pr ow
          (csvMap (mergeLangs langs langs) data k)
          (edget (selfDict langs data) k))).length from by simp]
    apply List.count_eq_length.2
    rintro c hc
    obtain ⟨k, hk, rfl⟩ := List.mem_map.1 hc
    exact (hcls k hk).symm
  · rw [hkeys']
    rw [List.count_eq_zero]
    intro hmem
    obtain ⟨k, hk, hc⟩ := List.mem_map.1 hmem
    rw [hcls k hk] at hc
    cases hc
  · rw [hkept, hfilter]
    cases dr <;> simp
  · rw [hdropped, hfilter]
    cases dr <;> simp

/-- Witness for C6 at a concrete input. -/
theorem C6_merge_idempotent_witness :
    (merge_models ["en"] [⟨"a", [("en", "x")]⟩, ⟨"b", [("en", "y")]⟩] ["en"]
        (selfDict ["en"] [⟨"a", [("en", "x")]⟩, ⟨"b", [("en", "y")]⟩])
        "csv" false false none).2.2.unchanged = 2 ∧
    (merge_models ["en"] [⟨"a", [("en", "x")]⟩, ⟨"b", [("en", "y")]⟩] ["en"]
        (selfDict ["en"] [⟨"a", [("en", "x")]⟩, ⟨"b", [("en", "y")]⟩])
        "csv" false false none).2.2.added = 0 := by
  have h := C6_merge_idempotent ["en"] [⟨"a", [("en", "x")]⟩, ⟨"b", [("en", "y")]⟩]
    "csv" false false (by decide)
  exact ⟨h.1, h.2.1⟩

/-- Claim C1 fails on the code: with a primary model `{a}` over one language
and a secondary model whose language list is empty but which still has a
record `b` (the state produced when the existing header is unparsable while
the existing table is not), the orphan `b` has a falsy (empty) value
dictionary, so it is counted once as `orphan_kept` by the orphan scan and then
once more as `unchanged` by the per-key loop (whose both-sides branch it
wrongly enters): the counters sum to 3 while only 2 records are merged. -/
theorem C1_counter_identity_fails :
    (merge_models ["en"] [⟨"a", [("en", "x")]⟩] [] [("b", [])] "csv" false false
        none).2.2.added +
      (merge_models ["en"] [⟨"a", [("en", "x")]⟩] [] [("b", [])] "csv" false false
        none).2.2.updated +
      (merge_models ["en"] [⟨"a", [("en", "x")]⟩] [] [("b", [])] "csv" false false
        none).2.2.unchanged +
      (merge_models ["en"] [⟨"a", [("en", "x")]⟩] [] [("b", [])] "csv" false false
        none).2.2.orphan_kept = 3 ∧
    (merge_models ["en"] [⟨"a", [("en", "x")]⟩] [] [("b", [])] "csv" false false
        none).2.1.length = 2 := by
  decide

theorem baseKeys_csv (cd : List Row) (h : Option (List String))
    (hh : h = none ∨ h = some (cd.map Row.key)) :
    baseKeys h cd = cd.map Row.key := by
  rcases hh with rfl | rfl
  · rfl
  · rw [baseKeys]
    split <;> rfl

/-- Claim C4, amended: the merged record order is the `orderHint` when it is
supplied and non-empty (a supplied empty hint falls back, like an absent one,
to the primary model's key order), followed — unless `drop_orphans` is set —
by the keys present only in the secondary model, in secondary order; and when
the hint is absent or is the primary key order, the merged key set is the
union of the two key sets, minus the secondary-only keys when `drop_orphans`
is set. -/
theorem C4_merged_key_order (cl el : List String) (cd : List Row) (ed : EDict)
    (pr : String) (ow dr : Bool) (h : Option (List String)) :
    ((merge_models cl cd el ed pr ow dr h).2.1.map Row.key
        = baseKeys h cd ++ (if dr then [] else (ed.map (fun p => p.1)).filter
            (fun k => !(inCsv cd k)))) ∧
    ((h = none ∨ h = some (cd.map Row.key)) →
      ∀ k, (k ∈ (merge_models cl cd el ed pr ow dr h).2.1.map Row.key ↔
        (if dr then k ∈ cd.map Row.key
         else k ∈ cd.map Row.key ∨ k ∈ ed.map (fun p => p.1)))) := by
  have hmap : (merge_models cl cd el ed pr ow dr h).2.1.map Row.key
      = ((ed.map (fun p => p.1)).foldl (orphanStep cd dr) ⟨baseKeys h cd, 0, 0⟩).keys := by
    rw [merge_models_rows, List.map_map]
    have : (Row.key ∘ fun k => rowFor (mergeLangs cl el) pr ow
        (csvMap (mergeLangs cl el) cd k) (edget ed k) k) = fun k => k := by
      funext k
      simp [Function.comp_def, rowFor_key]
    rw [this, List.map_id']
  obtain ⟨hkeys, _, _⟩ :=
    orphan_foldl cd dr (ed.map (fun p => p.1)) ⟨baseKeys h cd, 0, 0⟩
  constructor
  · rw [hmap, hkeys]
  · intro hh k
    rw [hmap, hkeys, baseKeys_csv cd h hh]
    cases dr with
    | true =>
      simp
    | false =>
      rw [if_neg Bool.false_ne_true, List.mem_append, List.mem_filter]
      constructor
      · rintro (hk | ⟨hk, _⟩)
        · exact Or.inl hk
        · exact Or.inr hk
      · rintro (hk | hk)
        · exact Or.inl hk
        · by_cases hc : k ∈ cd.map Row.key
          · exact Or.inl hc
          · refine Or.inr ⟨hk, ?_⟩
            have : inCsv cd k = false := by
              rcases Bool.eq_false_or_eq_true (inCsv cd k) with hf | ht
              · exact absurd ((inCsv_iff cd k).1 hf) hc
              · exact ht
            simp [this]

/-- Witness for C4 at a concrete input, including the union property. -/
theorem C4_merged_key_order_witness :
    ((merge_models ["en"] [⟨"a", [("en", "x")]⟩] ["en"] [("c", [("en", "z")])]
        "csv" false false none).2.1.map Row.key
      = baseKeys none [⟨"a", [("en", "x")]⟩] ++
          (if false then [] else ([("c", [("en", "z")])].map
            (fun p => p.1)).filter (fun k => !(inCsv [⟨"a", [("en", "x")]⟩] k)))) ∧
    ("c" ∈ (merge_models ["en"] [⟨"a", [("en", "x")]⟩] ["en"] [("c", [("en", "z")])]
        "csv" false false none).2.1.map Row.key ↔
      (if false then "c" ∈ [⟨"a", [("en", "x")]⟩].map Row.key
       else "c" ∈ [⟨"a", [("en", "x")]⟩].map Row.key ∨
         "c" ∈ [("c", [("en", "z")])].map (fun p => p.1))) := by
  have h := C4_merged_key_order ["en"] ["en"] [⟨"a", [("en", "x")]⟩]
    [("c", [("en", "z")])] "csv" false false none
  exact ⟨h.1, h.2 (Or.inl rfl) "c"⟩

/-- Claim C4 as stated is false on the code: with a supplied (but empty)
`orderHint` and a non-empty primary model, the merged record order is the
primary key order, not the supplied hint followed by the orphans (which would
be empty here). -/
theorem C4_counterexample_empty_hint :
    (merge_models ["en"] [⟨"a", [("en", "x")]⟩] [] [] "csv" false false
        (some [])).2.1.map Row.key = ["a"] ∧
    (merge_models ["en"] [⟨"a", [("en", "x")]⟩] [] [] "csv" false false
        (some [])).2.1.map Row.key ≠ [] := by
  decide

theorem mem_pysortedset (l : List String) (k : String) :
    k ∈ pysortedset l ↔ k ∈ l := by
  rw [pysortedset, List.mem_mergeSort]
  exact List.mem_dedup

theorem filter_key_append_pos (d : List Row) (r : Row) (k : String) (h : r.key = k) :
    ((d ++ [r]).filter (fun x => x.key = k)).length =
      (d.filter (fun x => x.key = k)).length + 1 := by
  rw [List.filter_append, List.length_append]
  simp [List.filter_cons, h]

theorem filter_key_append_neg (d : List Row) (r : Row) (k : String) (h : ¬ r.key = k) :
    ((d ++ [r]).filter (fun x => x.key = k)).length =
      (d.filter (fun x => x.key = k)).length := by
  rw [List.filter_append, List.length_append]
  simp [List.filter_cons, h]

theorem rowStep_cases (raw_langs : List String) (lang_map : List (String × String))
    (acc : BuildAcc) (r : List String) :
    rowStep raw_langs lang_map acc r = acc ∨
    ∃ key item ec, rowStep raw_langs lang_map acc r =
      { data := acc.data ++ [⟨key, item⟩]
        key_seen := if key ∈ acc.key_seen then acc.key_seen else acc.key_seen ++ [key]
        dup_keys := if key ∈ acc.key_seen then acc.dup_keys ++ [key] else acc.dup_keys
        empty_count := ec } := by
  simp only [rowStep]
  split
  · exact Or.inl rfl
  · split
    · split
      · exact Or.inl rfl
      · exact Or.inr ⟨_, _, _, rfl⟩
    · split
      · exact Or.inl rfl
      · exact Or.inr ⟨_, _, _, rfl⟩

theorem dup_invariant (raw_langs : List String) (lang_map : List (String × String))
    (body : List (List String)) :
    ∀ acc : BuildAcc,
      (∀ k, k ∈ acc.key_seen ↔ 1 ≤ (acc.data.filter (fun x => x.key = k)).length) →
      (∀ k, k ∈ acc.dup_keys ↔ 2 ≤ (acc.data.filter (fun x => x.key = k)).length) →
      ∀ k, k ∈ (body.foldl (rowStep raw_langs lang_map) acc).dup_keys ↔
        2 ≤ ((body.foldl (rowStep raw_langs lang_map) acc).data.filter
          (fun x => x.key = k)).length := by
  induction body with
  | nil => intro acc h1 h2 k; exact h2 k
  | cons r t ih =>
    intro acc h1 h2 k
    rw [List.foldl_cons]
    rcases rowStep_cases raw_langs lang_map acc r with heq | ⟨key, item, ec, heq⟩
    · rw [heq]
      exact ih acc h1 h2 k
    · rw [heq]
      refine ih _ (fun k' => ?_) (fun k' => ?_) k
      · dsimp only
        by_cases hkk : key = k'
        · subst hkk
          rw [filter_key_append_pos acc.data ⟨key, item⟩ key rfl]
          constructor
          · intro _; omega
          · intro _
            split
            · assumption
            · exact List.mem_append_right _ (by simp)
        · rw [filter_key_append_neg _ _ _ (by simpa using hkk)]
          have hseen : (k' ∈ if key ∈ acc.key_seen then acc.key_seen
              else acc.key_seen ++ [key]) ↔ k' ∈ acc.key_seen := by
            split
            · exact Iff.rfl
            · simp [List.mem_append, Ne.symm hkk]
          rw [hseen]
          exact h1 k'
      · dsimp only
        by_cases hkk : key = k'
        · subst hkk
          rw [filter_key_append_pos acc.data ⟨key, item⟩ key rfl]
          by_cases hdup : key ∈ acc.key_seen
          · rw [if_pos hdup]
            have hc : 1 ≤ (acc.data.filter (fun x => x.key = key)).length := (h1 key).1 hdup
            constructor
            · intro _; omega
            · intro _; exact List.mem_append_right _ (by simp)
          · rw [if_neg hdup]
            have hc : ¬ 1 ≤ (acc.data.filter (fun x => x.key = key)).length :=
              fun hcc => hdup ((h1 key).2 hcc)
            constructor
            · intro hmem
              exact absurd ((h2 key).1 hmem) (by omega)
            · intro hlen
              omega
        · rw [filter_key_append_neg _ _ _ (by simpa using hkk)]
          have hdupmem : (k' ∈ if key ∈ acc.key_seen then acc.dup_keys ++ [key]
              else acc.dup_keys) ↔ k' ∈ acc.dup_keys := by
            split
            · simp [List.mem_append, Ne.symm hkk]
            · exact Iff.rfl
          rw [hdupmem]
          exact h2 k'

/-- Claim C7, amended: duplicate keys are not collapsed in the in-memory record
list — every occurrence of a duplicated key is kept as its own record (so key
values are not unique) — and a key is reported in the duplicate statistics
exactly when at least two kept records carry it. -/
theorem C7_duplicates_reported (rows : List (List String)) (langs : List String)
    (data : List Row) (stats : Stats)
    (hok : validate_and_build rows false = .ok (langs, data, stats)) :
    ∀ k, k ∈ stats.duplicates ↔ 2 ≤ (data.filter (fun x => x.key = k)).length := by
  intro k
  cases rows with
  | nil => exact absurd hok (by simp [validate_and_build])
  | cons header body =>
    cases header with
    | nil => exact absurd hok (by simp [validate_and_build])
    | cons h0raw hrest =>
      simp only [validate_and_build] at hok
      rw [if_neg (by simp)] at hok
      by_cases hkey : pylower (pystrip (stripBOM h0raw)) ≠ "key"
      · rw [if_pos hkey] at hok
        cases hok
      · rw [if_neg hkey] at hok
        by_cases hlang : hrest.isEmpty
        · rw [if_pos hlang] at hok
          cases hok
        · rw [if_neg hlang] at hok
          rw [if_neg Bool.false_ne_true] at hok
          obtain ⟨rfl, rfl, rfl⟩ :=
            Prod.mk.injEq _ _ _ _ ▸ (by
              have := Except.ok.inj hok
              exact ⟨congrArg Prod.fst this,
                congrArg Prod.fst (congrArg Prod.snd this),
                congrArg Prod.snd (congrArg Prod.snd this)⟩ :
              _ ∧ _ ∧ _)
          rw [show (Stats.duplicates
              { rows := (body.foldl (rowStep hrest (hrest.foldl langStep ⟨[], [], []⟩).lang_map)
                  ⟨[], [], [], (hrest.foldl langStep ⟨[], [], []⟩).langs.map (fun ln => (ln, 0))⟩).data.length,
                langs := (hrest.foldl langStep ⟨[], [], []⟩).langs,
                empty_per_lang := (body.foldl (rowStep hrest (hrest.foldl langStep ⟨[], [], []⟩).lang_map)
                  ⟨[], [], [], (hrest.foldl langStep ⟨[], [], []⟩).langs.map (fun ln => (ln, 0))⟩).empty_count,
                duplicates := pysortedset ((body.foldl (rowStep hrest (hrest.foldl langStep ⟨[], [], []⟩).lang_map)
                  ⟨[], [], [], (hrest.foldl langStep ⟨[], [], []⟩).langs.map (fun ln => (ln, 0))⟩).dup_keys),
                sortedFlag := false })
              = pysortedset ((body.foldl (rowStep hrest (hrest.foldl langStep ⟨[], [], []⟩).lang_map)
                  ⟨[], [], [], (hrest.foldl langStep ⟨[], [], []⟩).langs.map (fun ln => (ln, 0))⟩).dup_keys)
            from rfl]
          rw [mem_pysortedset]
          exact dup_invariant hrest (hrest.foldl langStep ⟨[], [], []⟩).lang_map body
            ⟨[], [], [], (hrest.foldl langStep ⟨[], [], []⟩).langs.map (fun ln => (ln, 0))⟩
            (fun k' => by simp) (fun k' => by simp) k

theorem charExpand_append (f : Char → List Char) (a b : List Char) :
    charExpand f (a ++ b) = charExpand f a ++ charExpand f b := by
  induction a with
  | nil => rfl
  | cons c t ih => simp [charExpand, ih]

theorem expand_bq (Y : List Char) :
    charExpand eqFun (charExpand ebFun Y) = charExpand bqChar Y := by
  induction Y with
  | nil => rfl
  | cons c t ih =>
    rw [show charExpand ebFun (c :: t) = ebFun c ++ charExpand ebFun t from rfl,
      charExpand_append, ih,
      show charExpand bqChar (c :: t) = bqChar c ++ charExpand bqChar t from rfl]
    congr 1
    by_cases h1 : c = '\\'
    · subst h1; rfl
    · by_cases h2 : c = '"'
      · subst h2; rfl
      · simp [ebFun, eqFun, bqChar, charExpand, h1, h2]

theorem expand_crtl (Y : List Char) :
    charExpand elfFun (charExpand etabFun (charExpand ecrFun Y)) =
      charExpand crtlChar Y := by
  induction Y with
  | nil => rfl
  | cons c t ih =>
    rw [show charExpand ecrFun (c :: t) = ecrFun c ++ charExpand ecrFun t from rfl,
      charExpand_append, charExpand_append, ih,
      show charExpand crtlChar (c :: t) = crtlChar c ++ charExpand crtlChar t from rfl]
    congr 1
    by_cases h1 : c = '\r'
    · subst h1; rfl
    · by_cases h2 : c = '\n'
      · subst h2; rfl
      · by_cases h3 : c = '\t'
        · subst h3; rfl
        · simp [ecrFun, etabFun, elfFun, crtlChar, charExpand, h1, h2, h3]

theorem crtl_bq (c : Char) : charExpand crtlChar (bqChar c) = escChar c := by
  by_cases h1 : c = '\\'
  · subst h1; rfl
  · by_cases h2 : c = '"'
    · subst h2; rfl
    · rw [show bqChar c = [c] from by simp [bqChar, h1, h2],
        show charExpand crtlChar [c] = crtlChar c ++ [] from rfl, List.append_nil]
      by_cases h3 : c = '\r' <;> by_cases h4 : c = '\n' <;> by_cases h5 : c = '\t' <;>
        simp_all [crtlChar, escChar]

theorem normCRLF_bq_cons (c : Char) (X : List Char)
    (h : c = '\r' → ∀ t, X ≠ '\n' :: t) :
    normCRLF (bqChar c ++ X) = bqChar c ++ normCRLF X := by
  by_cases h1 : c = '\\'
  · subst h1
    cases X with
    | nil => rfl
    | cons x xs =>
      show normCRLF ('\\' :: '\\' :: x :: xs) = '\\' :: '\\' :: normCRLF (x :: xs)
      rw [normCRLF, if_neg (by simp), normCRLF, if_neg (by simp)]
  · by_cases h2 : c = '"'
    · subst h2
      cases X with
      | nil => rfl
      | cons x xs =>
        show normCRLF ('\\' :: '"' :: x :: xs) = '\\' :: '"' :: normCRLF (x :: xs)
        rw [normCRLF, if_neg (by simp), normCRLF, if_neg (by simp)]
    · rw [show bqChar c = [c] from by simp [bqChar, h1, h2]]
      cases X with
      | nil => rfl
      | cons x xs =>
        have hcond : ¬(c = '\r' ∧ x = '\n') := by
          rintro ⟨rfl, rfl⟩
          exact h rfl xs rfl
        show normCRLF (c :: x :: xs) = c :: normCRLF (x :: xs)
        rw [normCRLF, if_neg hcond]

theorem escape_core : ∀ (n : Nat) (cs : List Char), cs.length ≤ n →
    charExpand crtlChar (normCRLF (charExpand bqChar cs)) = escapeSpec cs := by
  intro n
  induction n with
  | zero =>
    intro cs hcs
    have hnil : cs = [] := List.eq_nil_of_length_eq_zero (Nat.le_zero.1 hcs)
    subst hnil
    rfl
  | succ n ih =>
    intro cs hcs
    rcases cs with _ | ⟨c1, _ | ⟨c2, t⟩⟩
    · rfl
    · have h := normCRLF_bq_cons c1 [] (fun _ t ht => by cases ht)
      rw [show charExpand bqChar [c1] = bqChar c1 ++ [] from rfl, h,
        show normCRLF ([] : List Char) = [] from rfl, List.append_nil,
        show escapeSpec [c1] = escChar c1 from rfl]
      exact crtl_bq c1
    · by_cases hcr : c1 = '\r' ∧ c2 = '\n'
      · obtain ⟨rfl, rfl⟩ := hcr
        rw [show charExpand bqChar ('\r' :: '\n' :: t)
              = '\r' :: '\n' :: charExpand bqChar t from rfl,
          show normCRLF ('\r' :: '\n' :: charExpand bqChar t)
              = '\n' :: normCRLF (charExpand bqChar t) from by
            rw [normCRLF, if_pos ⟨rfl, rfl⟩],
          show charExpand crtlChar ('\n' :: normCRLF (charExpand bqChar t))
              = '\\' :: 'n' :: charExpand crtlChar (normCRLF (charExpand bqChar t))
            from rfl,
          ih t (by simp at hcs; omega),
          show escapeSpec ('\r' :: '\n' :: t) = '\\' :: 'n' :: escapeSpec t from by
            rw [escapeSpec, if_pos ⟨rfl, rfl⟩]]
      · have hnot : c1 = '\r' → ∀ t', charExpand bqChar (c2 :: t) ≠ '\n' :: t' := by
          intro hc1 t' heq
          have hc2 : ¬ c2 = '\n' := fun h2 => hcr ⟨hc1, h2⟩
          rw [show charExpand bqChar (c2 :: t) = bqChar c2 ++ charExpand bqChar t
            from rfl] at heq
          by_cases hb1 : c2 = '\\'
          · subst hb1
            simp [bqChar] at heq
          · by_cases hb2 : c2 = '"'
            · subst hb2
              simp [bqChar] at heq
            · rw [show bqChar c2 = [c2] from by simp [bqChar, hb1, hb2]] at heq
              simp at heq
              exact hc2 heq.1
        rw [show charExpand bqChar (c1 :: c2 :: t)
              = bqChar c1 ++ charExpand bqChar (c2 :: t) from rfl,
          normCRLF_bq_cons c1 _ hnot, charExpand_append, crtl_bq,
          ih (c2 :: t) (by simp at hcs ⊢; omega),
          show escapeSpec (c1 :: c2 :: t) = escChar c1 ++ escapeSpec (c2 :: t) from by
            rw [escapeSpec, if_neg hcr]]

theorem escape_eq (cs : List Char) :
    charExpand crtlChar (normCRLF (charExpand bqChar cs)) = escapeSpec cs :=
  escape_core cs.length cs (Nat.le_refl _)

theorem intercalate_go_append (s : String) (as : List String) :
    ∀ x y : String, String.intercalate.go (x ++ y) s as
      = x ++ String.intercalate.go y s as := by
  induction as with
  | nil => intro x y; rfl
  | cons a t ih =>
    intro x y
    show String.intercalate.go (x ++ y ++ s ++ a) s t
        = x ++ String.intercalate.go (y ++ s ++ a) s t
    rw [show x ++ y ++ s ++ a = x ++ (y ++ s ++ a) from by
      rw [String.append_assoc, String.append_assoc, String.append_assoc]]
    exact ih x (y ++ s ++ a)

theorem intercalate_cons_cons (s a b : String) (l : List String) :
    String.intercalate s (a :: b :: l) = a ++ s ++ String.intercalate s (b :: l) := by
  show String.intercalate.go a s (b :: l) = a ++ s ++ String.intercalate.go b s l
  show String.intercalate.go (a ++ s ++ b) s l = a ++ s ++ String.intercalate.go b s l
  rw [intercalate_go_append s l (a ++ s) b, String.append_assoc]

/-- Claim C9: `cxx_escape` — the six replacement passes of the source —
coincides with the single-pass escape specification (backslash and quote
escaped, CR and CRLF normalized to line-feed, tab and line-feed emitted as the
two-character `\t` and `\n`), and each emitted record line of `generate_cpp`
is the quote-delimited field sequence `key` followed by the languages'
escaped values in language-list order. -/
theorem C9_escape_and_field_order :
    (∀ s : String, cxx_escape s = String.mk (escapeSpec s.data)) ∧
    (∀ (langs : List String) (row : Row), langs ≠ [] →
      cppRowLine langs row = "    \x7b \"" ++ String.intercalate "\", \""
        (cxx_escape row.key :: langs.map (fun ln => cxx_escape (dget row.vals ln)))
        ++ "\" \x7d,") := by
  constructor
  · intro s
    rw [cxx_escape, expand_bq, expand_crtl, escape_eq]
  · intro langs row hl
    rcases langs with _ | ⟨x, xs⟩
    · exact absurd rfl hl
    · rw [cppRowLine, List.map_cons, intercalate_cons_cons]
      simp [String.append_assoc]

/-- Witness for C9 at a concrete input. -/
theorem C9_escape_and_field_order_witness :
    cppRowLine ["en"] ⟨"k", [("en", "v")]⟩ = "    \x7b \"" ++
      String.intercalate "\", \""
        (cxx_escape "k" :: ["en"].map (fun ln =>
          cxx_escape (dget [("en", "v")] ln))) ++ "\" \x7d," :=
  C9_escape_and_field_order.2 ["en"] ⟨"k", [("en", "v")]⟩ (by decide)

unseal List.merge List.mergeSort in
/-- Claim C7 fails as stated: with the same key `a` on two data rows, the
in-memory record list keeps both occurrences (with their respective values),
rather than only the last one; the duplicate is still reported in the
statistics. -/
theorem C7_counterexample_duplicates_kept :
    validate_and_build [["key", "en"], ["a", "1"], ["a", "2"]] false
      = .ok (["en"], [⟨"a", [("en", "1")]⟩, ⟨"a", [("en", "2")]⟩],
          ⟨2, ["en"], [("en", 0)], ["a"], false⟩) := by
  rfl

unseal List.merge List.mergeSort in
/-- Witness for C7 (amended) at a concrete input. -/
theorem C7_duplicates_reported_witness :
    ("a" ∈ (⟨2, ["en"], [("en", 0)], ["a"], false⟩ : Stats).duplicates ↔
      2 ≤ (([⟨"a", [("en", "1")]⟩, ⟨"a", [("en", "2")]⟩] : List Row).filter
        (fun x => x.key = "a")).length) :=
  C7_duplicates_reported [["key", "en"], ["a", "1"], ["a", "2"]] ["en"]
    [⟨"a", [("en", "1")]⟩, ⟨"a", [("en", "2")]⟩]
    ⟨2, ["en"], [("en", 0)], ["a"], false⟩ (by rfl) "a"

/-- Claim C8: the failure conditions of `validate_and_build` are as described
for every input except one — a present but empty header row.  There the source
indexes `header[0]` before its `if not header` emptiness check, so instead of
the FormatError-style `SystemExit("CSV header is empty.")` that the dead check
would raise, the run dies with an uncaught `IndexError`. -/
theorem C8_empty_header_row_crashes :
    validate_and_build [[]] false = .error .indexError ∧
    validate_and_build [[]] false ≠ .error (.formatError "CSV header is empty.") := by
  refine ⟨rfl, fun h => ?_⟩
  rw [show validate_and_build [[]] false = .error .indexError from rfl] at h
  exact VErr.noConfusion (Except.error.inj h)
